import Mathlib

/-!
Shallow embedding of the timeline editor core of the `editing-in-house`
repository: the clip/track data model, the edit-operation engine and the
history manager of `src/frontend/src/store/editorStore.ts`, the snap
resolver of `src/frontend/src/utils/timeline.ts`, and the audio-clip
scheduling arithmetic of
`src/frontend/src/components/Panels/CommandPanel.tsx`.

Times (seconds) and pixel values are modelled as rationals.  JavaScript
`Map` objects are modelled as insertion-ordered association lists, and
`Array.prototype.sort` with the comparator `(a, b) => a.start - b.start`
(a stable ascending sort) is modelled by Mathlib's stable insertion sort.
The clip field called `end` in the source is named `stop` here because
`end` is a reserved word in Lean; the state field called `aspectRatio` in
the source is named `aspect` here.  Caption styling fields of clips
(text, x, y, fontSize, ...) are elided: no property below concerns them,
and every operation modelled here copies them verbatim.
-/

namespace Editor

/-- A clip placed on a track (source: `Clip` in `types.ts`).  `stop`
models the source field `end`. -/
structure Clip where
  id : String
  assetId : Option String
  trackId : String
  start : ℚ
  stop : ℚ
  inPoint : ℚ
  outPoint : ℚ
  transitionType : Option String
  transitionDuration : Option ℚ
  transitionToClipId : Option String
deriving DecidableEq, Repr

/-- A media asset (source: `Asset` in `types.ts`; metadata elided). -/
structure Asset where
  id : String
  url : String
  type : String
  duration : Option ℚ
deriving DecidableEq, Repr

/-- A track: an ordered container of clips (source: `Track` in `types.ts`). -/
structure Track where
  id : String
  type : String
  clips : List Clip
deriving DecidableEq, Repr

/-- A generation job (source: `Job` in `types.ts`; only identity and
status matter to the store model). -/
structure Job where
  id : String
  status : String
deriving DecidableEq, Repr

/-- The editor state held by the zustand store (source: `EditorState` in
`editorStore.ts`).  `aspect` models the source field `aspectRatio`. -/
structure EditorState where
  assets : List (String × Asset)
  tracks : List Track
  playhead : ℚ
  zoom : ℚ
  selection : List String
  jobs : List (String × Job)
  aspect : String
deriving DecidableEq, Repr

/-- A history snapshot (source: `HistoryState` in `editorStore.ts`):
the non-transient fields of the editor state. -/
structure HistoryState where
  assets : List (String × Asset)
  tracks : List Track
  jobs : List (String × Job)
  aspect : String
deriving DecidableEq, Repr

/-- The two history stacks of `HistoryManager`. `past` grows at its end
(JS `push`/`pop`), `future` grows at its head (JS `unshift`/`shift`). -/
structure History where
  past : List HistoryState
  future : List HistoryState
deriving DecidableEq, Repr

/-- The store: editor state plus the module-global `HistoryManager`. -/
structure Store where
  state : EditorState
  hist : History
deriving DecidableEq, Repr

/-- `Map.get` on the assets map. -/
def lookupAsset (assets : List (String × Asset)) (key : String) : Option Asset :=
  (assets.find? (fun p => p.1 == key)).map Prod.snd

/-- `HistoryManager.serialize`: extract the non-transient fields (the
deep copy is the identity on pure values). -/
def serialize (s : EditorState) : HistoryState :=
  { assets := s.assets, tracks := s.tracks, jobs := s.jobs, aspect := s.aspect }

/-- `HistoryManager.maxHistorySize`. -/
def maxHistorySize : Nat := 50

/-- `HistoryManager.save`: push a snapshot onto `past`, clear `future`,
and drop the oldest entry if the cap is exceeded. -/
def History.save (h : History) (snap : HistoryState) : History :=
  let p := h.past ++ [snap]
  { past := if p.length > maxHistorySize then p.drop 1 else p, future := [] }

/-- All clips of all tracks, in order (`tracks.flatMap((t) => t.clips)`). -/
def allClips (tracks : List Track) : List Clip :=
  tracks.flatMap Track.clips

/-- JS `Array.prototype.findIndex`: index of the first match, `-1` when
there is none. -/
def findIdxJS (p : Clip → Bool) : List Clip → Int
  | [] => -1
  | c :: cs =>
    if p c then 0
    else
      let r := findIdxJS p cs
      if r = -1 then -1 else r + 1

/-- The comparator `(a, b) => a.start - b.start` as a relation. -/
def byStart (a b : Clip) : Prop := a.start ≤ b.start

instance : DecidableRel byStart := fun a b =>
  inferInstanceAs (Decidable (a.start ≤ b.start))

instance : IsTotal Clip byStart := ⟨fun a b => le_total a.start b.start⟩

instance : IsTrans Clip byStart := ⟨fun _ _ _ => le_trans⟩

/-- JS `[...clips].sort((a, b) => a.start - b.start)`: a stable ascending
sort by `start`, modelled by stable insertion sort. -/
def sortByStart (l : List Clip) : List Clip :=
  l.insertionSort byStart

/-- `map` with the element index, as JS `arr.map((c, idx) => ...)`. -/
def mapIdxFrom (f : Nat → Clip → Clip) : Nat → List Clip → List Clip
  | _, [] => []
  | i, c :: cs => f i c :: mapIdxFrom f (i + 1) cs

/-- `insertClip`: append the clip to its track and re-sort by `start`;
always records a history snapshot of the new state. -/
def Store.insertClip (st : Store) (clip : Clip) : Store :=
  let newTracks := st.state.tracks.map fun track =>
    if track.id = clip.trackId then
      { track with clips := sortByStart (track.clips ++ [clip]) }
    else track
  let newState := { st.state with tracks := newTracks }
  { state := newState, hist := st.hist.save (serialize newState) }

/-- `trimClip(clipId, inPoint?, outPoint?, ripple)`: adjust the source
window, recompute `end`, and optionally ripple downstream clips of the
same track by the duration delta.  A missing clip id returns the state
unchanged (no history snapshot). -/
def Store.trimClip (st : Store) (clipId : String) (inPt outPt : Option ℚ)
    (ripple : Bool) : Store :=
  match (allClips st.state.tracks).find? (fun c => c.id == clipId) with
  | none => st
  | some clip =>
    let oldDuration := clip.stop - clip.start
    let newInPoint := inPt.getD clip.inPoint
    let newOutPoint := outPt.getD clip.outPoint
    let newDuration := newOutPoint - newInPoint
    let durationDelta := newDuration - oldDuration
    let newTracks := st.state.tracks.map fun track =>
      if track.id ≠ clip.trackId then track
      else
        let sorted := sortByStart track.clips
        let clipIndex := findIdxJS (fun c => c.id == clipId) sorted
        { track with
          clips := mapIdxFrom (fun idx c =>
            if c.id = clipId then
              { c with inPoint := newInPoint, outPoint := newOutPoint,
                       stop := c.start + newDuration }
            else if ripple ∧ (idx : Int) > clipIndex then
              { c with start := c.start + durationDelta,
                       stop := c.stop + durationDelta }
            else c) 0 sorted }
    let newState := { st.state with tracks := newTracks }
    { state := newState, hist := st.hist.save (serialize newState) }

/-- The left half produced by `splitClip`: keeps the id, ends at the
split position, and its `outPoint` is the mapped source-time split. -/
def firstClip (clip : Clip) (position splitPoint : ℚ) : Clip :=
  { clip with stop := position, outPoint := splitPoint }

/-- The right half produced by `splitClip`: fresh id
`` `${clip.id}-split-${Date.now()}` ``, starts at the split position,
and its `inPoint` is the mapped source-time split. -/
def secondClip (clip : Clip) (now : Nat) (position splitPoint : ℚ) : Clip :=
  { clip with id := clip.id ++ "-split-" ++ toString now,
              start := position, inPoint := splitPoint }

/-- The source-time split point computed by `splitClip`:
`relativePosition = (position - start) / (outPoint - inPoint)` mapped to
`inPoint + (outPoint - inPoint) * relativePosition`. -/
def splitPoint (clip : Clip) (position : ℚ) : ℚ :=
  clip.inPoint + (clip.outPoint - clip.inPoint)
    * ((position - clip.start) / (clip.outPoint - clip.inPoint))

/-- The per-track body of `splitClip`: the source locates the first clip
with the given id via `findIndex` and splices the two halves in its
place; we model this as first-occurrence replacement.  A missing asset
leaves the track unchanged. -/
def splitInClips (assets : List (String × Asset)) (now : Nat)
    (clipId : String) (position : ℚ) : List Clip → List Clip
  | [] => []
  | clip :: rest =>
    if clip.id = clipId then
      match clip.assetId.bind (lookupAsset assets) with
      | none => clip :: rest
      | some _ =>
        firstClip clip position (splitPoint clip position) ::
          secondClip clip now position (splitPoint clip position) :: rest
    else clip :: splitInClips assets now clipId position rest

/-- `splitClip(clipId, position)`: split the clip in two at `position`;
the history snapshot is recorded unconditionally, even when no track
changed.  `now` models `Date.now()`. -/
def Store.splitClip (st : Store) (now : Nat) (clipId : String) (position : ℚ) :
    Store :=
  let newTracks := st.state.tracks.map fun track =>
    { track with clips := splitInClips st.state.assets now clipId position track.clips }
  let newState := { st.state with tracks := newTracks }
  { state := newState, hist := st.hist.save (serialize newState) }

/-- `moveClip(clipId, trackId, position, ripple)`: clamp the new start at
0; a same-track ripple move shifts downstream clips whose start is at or
past the old `end` by the position delta, otherwise the clip is removed
from its old track and re-inserted (sorted) into the destination. -/
def Store.moveClip (st : Store) (clipId trackId : String) (position : ℚ)
    (ripple : Bool) : Store :=
  match (allClips st.state.tracks).find? (fun c => c.id == clipId) with
  | none => st
  | some clip =>
    let duration := clip.stop - clip.start
    let newStart := max 0 position
    let newEnd := newStart + duration
    let positionDelta := newStart - clip.start
    let newTracks := st.state.tracks.map fun track =>
      if track.id = clip.trackId then
        if ripple ∧ track.id = trackId then
          let sorted := sortByStart track.clips
          let clipIndex := findIdxJS (fun c => c.id == clipId) sorted
          { track with
            clips := mapIdxFrom (fun idx c =>
              if c.id = clipId then
                { c with trackId := trackId, start := newStart, stop := newEnd }
              else if (idx : Int) > clipIndex ∧ c.start ≥ clip.stop then
                { c with start := c.start + positionDelta,
                         stop := c.stop + positionDelta }
              else c) 0 sorted }
        else
          { track with clips := track.clips.filter (fun c => c.id != clipId) }
      else track
    let updatedTracks := newTracks.map fun track =>
      if track.id = trackId then
        if ripple ∧ track.id = clip.trackId then track
        else
          let movedClip : Clip :=
            { clip with trackId := trackId, start := newStart, stop := newEnd }
          { track with clips := sortByStart (track.clips ++ [movedClip]) }
      else track
    let newState := { st.state with tracks := updatedTracks }
    { state := newState, hist := st.hist.save (serialize newState) }

/-- The ripple branch of `deleteClip`: remove the clip from the sorted
list and shift every clip whose original sorted index is greater than the
deleted clip's index left by the deleted clip's duration. -/
def rippleDelete (clipId : String) (clipDuration : ℚ) (sorted : List Clip) :
    List Clip :=
  let clipIndex := findIdxJS (fun c => c.id == clipId) sorted
  (sorted.filter (fun c => c.id != clipId)).map fun c =>
    let originalIndex := findIdxJS (fun o => o.id == c.id) sorted
    if originalIndex > clipIndex then
      { c with start := c.start - clipDuration, stop := c.stop - clipDuration }
    else c

/-- `deleteClip(clipId, ripple)`: remove the clip; with `ripple` the gap
is closed by shifting downstream clips of the same track left by the
deleted clip's duration. -/
def Store.deleteClip (st : Store) (clipId : String) (ripple : Bool) : Store :=
  match (allClips st.state.tracks).find? (fun c => c.id == clipId) with
  | none => st
  | some clip =>
    let clipDuration := clip.stop - clip.start
    let newTracks := st.state.tracks.map fun track =>
      if track.id ≠ clip.trackId then track
      else if ripple then
        { track with clips := rippleDelete clipId clipDuration (sortByStart track.clips) }
      else
        { track with clips := track.clips.filter (fun c => c.id != clipId) }
    let newState := { st.state with tracks := newTracks }
    { state := newState, hist := st.hist.save (serialize newState) }

/-- `setTransition(fromClipId, toClipId, duration)`: clamp the duration
to [0.25, 1.5], set the crossfade on the `from` clip, and strip any
transition pointing to the `from` clip.  There is no adjacency check. -/
def Store.setTransition (st : Store) (fromClipId toClipId : String)
    (duration : ℚ) : Store :=
  let clampedDuration := max (1/4) (min (3/2) duration)
  let newTracks := st.state.tracks.map fun track =>
    { track with
      clips := track.clips.map fun clip =>
        if clip.id = fromClipId then
          { clip with transitionType := some "crossfade",
                      transitionDuration := some clampedDuration,
                      transitionToClipId := some toClipId }
        else if clip.transitionToClipId = some fromClipId then
          { clip with transitionType := none, transitionDuration := none,
                      transitionToClipId := none }
        else clip }
  let newState := { st.state with tracks := newTracks }
  { state := newState, hist := st.hist.save (serialize newState) }

/-- `removeTransition(clipId)`: clear the transition fields of the clip. -/
def Store.removeTransition (st : Store) (clipId : String) : Store :=
  let newTracks := st.state.tracks.map fun track =>
    { track with
      clips := track.clips.map fun clip =>
        if clip.id = clipId then
          { clip with transitionType := none, transitionDuration := none,
                      transitionToClipId := none }
        else clip }
  let newState := { st.state with tracks := newTracks }
  { state := newState, hist := st.hist.save (serialize newState) }

/-- `setAspectRatio`: a plain state update, no history snapshot. -/
def Store.setAspect (st : Store) (aspect : String) : Store :=
  { st with state := { st.state with aspect := aspect } }

/-- `undo()`: pop the most recent `past` snapshot, push a snapshot of the
current state onto `future`, restore the popped snapshot's fields, and
clear the selection; playhead and zoom are untouched.  Empty `past` is a
no-op. -/
def Store.undo (st : Store) : Store :=
  match st.hist.past.getLast? with
  | none => st
  | some prev =>
    { state :=
        { st.state with
          assets := prev.assets
          tracks := prev.tracks
          jobs := prev.jobs
          aspect := prev.aspect
          selection := [] }
      hist :=
        { past := st.hist.past.dropLast
          future := serialize st.state :: st.hist.future } }

/-- `redo()`: take the head of `future`, push a snapshot of the current
state onto `past`, restore the taken snapshot's fields, and clear the
selection; playhead and zoom are untouched.  Empty `future` is a no-op. -/
def Store.redo (st : Store) : Store :=
  match st.hist.future with
  | [] => st
  | next :: rest =>
    { state :=
        { st.state with
          assets := next.assets
          tracks := next.tracks
          jobs := next.jobs
          aspect := next.aspect
          selection := [] }
      hist :=
        { past := st.hist.past ++ [serialize st.state]
          future := rest } }

/-- `canUndo()`. -/
def Store.canUndo (st : Store) : Bool :=
  decide (st.hist.past.length > 0)

/-- `canRedo()`. -/
def Store.canRedo (st : Store) : Bool :=
  decide (st.hist.future.length > 0)

/-- `createInitialState()` of `editorStore.ts`, paired with the empty
history of the freshly constructed module-global `HistoryManager`. -/
def initialStore : Store :=
  { state :=
      { assets := [],
        tracks :=
          [ { id := "track-video-1", type := "video", clips := [] },
            { id := "track-audio-1", type := "audio", clips := [] },
            { id := "track-overlay-1", type := "overlay", clips := [] } ],
        playhead := 0, zoom := 100, selection := [], jobs := [],
        aspect := "16:9" },
    hist := { past := [], future := [] } }

/-! ### Snap resolver (`src/frontend/src/utils/timeline.ts`) -/

/-- The category tag of a snap target (`SnapResult.snapTarget`); the
source's `null` is modelled by `Option`. -/
inductive SnapTarget where
  | playhead
  | clipStart
  | clipEnd
  | grid
deriving DecidableEq, Repr

/-- `SnapResult`.  `snapDistance` is in pixels; the source initialises it
to `Infinity`, modelled here by `none`. -/
structure SnapResult where
  snappedTime : ℚ
  snapTarget : Option SnapTarget
  snapDistance : Option ℚ
deriving DecidableEq, Repr

/-- `SNAP_THRESHOLD_PX`. -/
def SNAP_THRESHOLD_PX : ℚ := 4

/-- `timeToPixels`. -/
def timeToPixels (time zoom : ℚ) : ℚ := time * zoom

/-- `snapToGrid`: round to the nearest grid tick (JS `Math.round` rounds
half toward positive infinity, as does Mathlib's `round`). -/
def snapToGrid (time gridInterval : ℚ) : ℚ :=
  (round (time / gridInterval) : ℤ) * gridInterval

/-- `dist < best.snapDistance` where `none` models `Infinity`. -/
def ltDist (d : ℚ) : Option ℚ → Bool
  | none => true
  | some c => decide (d < c)

/-- One guarded best-candidate update of `findSnapTarget`.  The source
repeats this identical pattern for the playhead, the grid tick and each
clip boundary: accept the candidate when its pixel distance is below the
threshold and strictly below the best distance so far. -/
def snapCheck (timePx candTime : ℚ) (tag : SnapTarget) (candPx : ℚ)
    (best : SnapResult) : SnapResult :=
  let dist := |timePx - candPx|
  if dist < SNAP_THRESHOLD_PX ∧ ltDist dist best.snapDistance then
    { snappedTime := candTime, snapTarget := some tag, snapDistance := some dist }
  else best

/-- `findSnapTarget(time, zoom, playhead, clipBoundaries, gridInterval)`:
the best snap candidate among the playhead, the nearest grid tick and the
clip boundaries, by pixel distance under a 4px threshold.  The source's
default `gridInterval` is `0.1`. -/
def findSnapTarget (time zoom playhead : ℚ) (clipBoundaries : List ℚ)
    (gridInterval : ℚ) : SnapResult :=
  let timePx := timeToPixels time zoom
  let best0 : SnapResult :=
    { snappedTime := time, snapTarget := none, snapDistance := none }
  let best1 := snapCheck timePx playhead SnapTarget.playhead
    (timeToPixels playhead zoom) best0
  let gridSnapped := snapToGrid time gridInterval
  let best2 := snapCheck timePx gridSnapped SnapTarget.grid
    (timeToPixels gridSnapped zoom) best1
  clipBoundaries.foldl
    (fun best boundary =>
      snapCheck timePx boundary SnapTarget.clipStart
        (timeToPixels boundary zoom) best) best2

/-! ### Audio clip scheduling (`scheduleClip` in `CommandPanel.tsx`)

The pure arithmetic of `scheduleClip`: which buffer offset, playback
duration and context start time `sourceNode.start(...)` receives, and
whether the clip is skipped (`none`): the source returns without calling
`start` (disconnecting the fresh nodes) exactly when a guard fails or a
computed duration is non-positive.  Gain-envelope ramps are not modelled;
no property below concerns them. -/

/-- The parameters passed to `sourceNode.start(when, offset, duration)`. -/
structure ScheduledSource where
  startTime : ℚ
  offset : ℚ
  duration : ℚ
deriving DecidableEq, Repr

/-- `scheduleClip(clip, asset, buffer, audioContext, currentTime,
timelineStart)`: `timelineStart` is the timeline playhead of the
reschedule pass. -/
def scheduleClip (clip : Clip) (currentTime timelineStart : ℚ) :
    Option ScheduledSource :=
  let clipDuration := clip.stop - clip.start
  let bufferDuration := clip.outPoint - clip.inPoint
  let playbackDuration := min clipDuration bufferDuration
  let relativeStart := clip.start - timelineStart
  let relativeEnd := clip.stop - timelineStart
  if relativeEnd > -(1/10) ∧ relativeStart < playbackDuration + 1/2 then
    let audioContextStartTime := currentTime + max 0 relativeStart
    let actualStartTime := max currentTime audioContextStartTime
    let startOffset :=
      if relativeStart < 0 then clip.inPoint + |relativeStart| else clip.inPoint
    let actualPlaybackDuration :=
      if relativeStart < 0 then playbackDuration - |relativeStart| else playbackDuration
    if relativeStart < 0 ∧ actualPlaybackDuration ≤ 0 then none
    else
      let maxDurationFromOffset := clip.outPoint - startOffset
      let finalDuration := min actualPlaybackDuration maxDurationFromOffset
      if finalDuration ≤ 0 then none
      else some { startTime := actualStartTime, offset := startOffset,
                  duration := finalDuration }
  else none

/-- The candidate play duration named by the specification:
`min(clip.end - playhead, clip.outPoint - bufferOffset)` with
`bufferOffset = clip.inPoint + max(0, playhead - clip.start)`. -/
def specPlayDuration (clip : Clip) (playhead : ℚ) : ℚ :=
  min (clip.stop - playhead)
    (clip.outPoint - (clip.inPoint + max 0 (playhead - clip.start)))

/-- A clip with no transition fields set. -/
def NoTransition (c : Clip) : Prop :=
  c.transitionType = none ∧ c.transitionDuration = none
    ∧ c.transitionToClipId = none

/-- A track set in which no clip carries any transition state. -/
def NoTransitions (tracks : List Track) : Prop :=
  ∀ tr ∈ tracks, ∀ c ∈ tr.clips, NoTransition c

/-! ### Concrete fixtures used by the theorems below -/

/-- A video clip spanning [0,5) with full source window. -/
def clipA0 : Clip :=
  ⟨"clip-a", some "asset-1", "track-video-1", 0, 5, 0, 5, none, none, none⟩

/-- Scenario-B fixture: clip `A` spans [0,5). -/
def flushA : Clip :=
  ⟨"A", some "as-a", "track-video-1", 0, 5, 0, 5, none, none, none⟩

/-- Scenario-B fixture: clip `B` starts at 5, flush with `flushA`. -/
def flushB : Clip :=
  ⟨"B", some "as-b", "track-video-1", 5, 8, 0, 3, none, none, none⟩

/-- A store whose single video track holds the two flush clips. -/
def flushStore : Store :=
  { state := { initialStore.state with
               tracks := [⟨"track-video-1", "video", [flushA, flushB]⟩] }
    hist := ⟨[], []⟩ }

/-- A clip spanning [2,5) whose asset is present in `splitStore`. -/
def clipC : Clip :=
  ⟨"C", some "as-c", "track-video-1", 2, 5, 0, 3, none, none, none⟩

/-- A store holding `clipC` and its asset. -/
def splitStore : Store :=
  { state := { initialStore.state with
               assets := [("as-c", ⟨"as-c", "u", "video", some 3⟩)]
               tracks := [⟨"track-video-1", "video", [clipC]⟩] }
    hist := ⟨[], []⟩ }

/-- Non-adjacency fixture: clip `A` spans [0,2). -/
def farA : Clip :=
  ⟨"A", some "as-a", "track-video-1", 0, 2, 0, 2, none, none, none⟩

/-- Non-adjacency fixture: clip `B` spans [10,12), far from `farA`. -/
def farB : Clip :=
  ⟨"B", some "as-b", "track-video-1", 10, 12, 0, 2, none, none, none⟩

/-- A store whose single video track holds the two distant clips. -/
def farStore : Store :=
  { state := { initialStore.state with
               tracks := [⟨"track-video-1", "video", [farA, farB]⟩] }
    hist := ⟨[], []⟩ }

/-- The audio clip of the scheduling-offset scenario:
`start=2, end=7, inPoint=0, outPoint=5`. -/
def audioClip6 : Clip :=
  ⟨"c6", some "as-6", "track-audio-1", 2, 7, 0, 5, none, none, none⟩

/-- A degenerate clip whose play window has already elapsed at
playhead 5: its candidate play duration is 0. -/
def elapsedClip : Clip :=
  ⟨"z", none, "track-audio-1", 0, 5, 0, 5, none, none, none⟩

/-- A history snapshot with aspect ratio "4:3", used as an undo target. -/
def snapPrev : HistoryState := ⟨[], [], [], "4:3"⟩

/-- A history snapshot with aspect ratio "1:1", used as a redo target. -/
def snapNext : HistoryState := ⟨[], [], [], "1:1"⟩

/-- A store with one past and one future snapshot. -/
def histStore : Store :=
  { state := initialStore.state, hist := ⟨[snapPrev], [snapNext]⟩ }

/-- Scenario-C fixture: clip `A` spans [2,5). -/
def sceneA : Clip := ⟨"A", some "as-a", "track-video-1", 2, 5, 0, 3, none, none, none⟩

/-- Scenario-C fixture: clip `B` spans [5,8), right after `sceneA`. -/
def sceneB : Clip := ⟨"B", some "as-b", "track-video-1", 5, 8, 0, 3, none, none, none⟩

/-- A store whose single video track holds `sceneA` then `sceneB`. -/
def sceneStore : Store :=
  { state := { initialStore.state with
               tracks := [⟨"track-video-1", "video", [sceneA, sceneB]⟩] }
    hist := ⟨[], []⟩ }

/-! ## Theorems -/

/-- **C1** (status: code_bug, evaluation at the failing input).  The
claim says `undo()` × N restores the initial {assets, tracks}.  On the
code it does not: every operation calls `history.save` with the
*post-operation* state, so after one `insertClip` the top of the `past`
stack is the post-insert snapshot and the first `undo()` restores the
state the store is already in — the inserted clip survives, and the
initial empty tracks are never restored. -/
theorem undo_after_insert_keeps_inserted_clip :
    ((initialStore.insertClip clipA0).undo).state.tracks
      = (initialStore.insertClip clipA0).state.tracks
    ∧ ((initialStore.insertClip clipA0).undo).state.tracks
      ≠ initialStore.state.tracks := by
  decide

/-- **C8** (counterexample).  The claim says every state field outside
{assets, tracks} other than the cleared selection is identical before
and after `undo()`.  But the history snapshot also carries `jobs` and
`aspectRatio`: after an insert (snapshot taken with aspect "16:9") and a
later `setAspectRatio("9:16")` (which records no history), `undo()`
rewinds the aspect ratio to "16:9". -/
theorem undo_rewinds_aspect_ratio :
    ((initialStore.insertClip clipA0).setAspect "9:16").state.aspect = "9:16"
    ∧ (((initialStore.insertClip clipA0).setAspect "9:16").undo).state.aspect
        = "16:9" := by
  decide

/-- **C2** (counterexample).  Scenario B: clips `A` [0,5) and `B` [5,8)
are flush on the same track and neither has a transition.  A move that
confirms flushness (moving `A` back to 0) leaves `A` with no transition:
the engine contains no adjacency → crossfade auto-creation logic. -/
theorem move_confirming_flushness_creates_no_transition :
    |flushB.start - flushA.stop| < 1/100
    ∧ flushA.transitionType = none ∧ flushB.transitionType = none
    ∧ (((flushStore.moveClip "A" "track-video-1" 0 false).state.tracks.flatMap
          Track.clips).find? (fun c => c.id == "A")).map Clip.transitionType
        = some none := by
  refine ⟨by norm_num [flushA, flushB], by decide, by decide, by decide⟩

/-- **C3** (counterexample).  `splitClip` at a position outside the
clip's span is claimed to be a no-op, but the code has no bounds guard:
splitting `C` (spanning [2,5)) exactly at 5 still replaces it by two
clips, so the track changes from one clip to two. -/
theorem splitClip_at_clip_end_is_not_a_noop :
    clipC.stop ≤ 5
    ∧ splitStore.state.tracks.map (fun t => t.clips.length) = [1]
    ∧ (splitStore.splitClip 0 "C" 5).state.tracks.map (fun t => t.clips.length)
        = [2] := by
  decide

/-- **C9** (counterexample).  `setTransition` is claimed to set a
transition only when the target clip is adjacent (within ε) to the end
of the source clip.  With `A` ending at 2 and `B` starting at 10 (a gap
of 8 seconds), `setTransition("A", "B", 99)` still installs the
transition on `A` (with the duration clamped to 1.5). -/
theorem setTransition_ignores_adjacency :
    farB.start - farA.stop = 8
    ∧ (((farStore.setTransition "A" "B" 99).state.tracks.flatMap
          Track.clips).find? (fun c => c.id == "A")).map Clip.transitionType
        = some (some "crossfade")
    ∧ (((farStore.setTransition "A" "B" 99).state.tracks.flatMap
          Track.clips).find? (fun c => c.id == "A")).map Clip.transitionToClipId
        = some (some "B")
    ∧ (((farStore.setTransition "A" "B" 99).state.tracks.flatMap
          Track.clips).find? (fun c => c.id == "A")).map Clip.transitionDuration
        = some (some (3/2)) := by
  refine ⟨by norm_num [farA, farB], by decide, by decide, ?_⟩
  norm_num [farStore, farA, farB, initialStore, Store.setTransition, serialize]

/-- **C6**.  For the clip `start=2, end=7, inPoint=0, outPoint=5` at
playhead 4, the scheduler starts the buffer at offset
`inPoint + (playhead - start) = 2` for a duration of 3, which equals
`min(end - playhead, outPoint - bufferOffset)`; and in general any clip
whose candidate play duration (as given by that formula) is non-positive
is skipped: no playback is scheduled for it. -/
theorem scheduleClip_offset_and_skips_nonpositive :
    (∀ currentTime : ℚ,
        scheduleClip audioClip6 currentTime 4 = some ⟨currentTime, 2, 3⟩
        ∧ (2:ℚ) = audioClip6.inPoint + (4 - audioClip6.start)
        ∧ (3:ℚ) = min (audioClip6.stop - 4) (audioClip6.outPoint - 2))
    ∧ ∀ (clip : Clip) (currentTime timelineStart : ℚ),
        specPlayDuration clip timelineStart ≤ 0 →
        scheduleClip clip currentTime timelineStart = none := by
  constructor
  · intro ct
    refine ⟨?_, by norm_num [audioClip6], by norm_num [audioClip6]⟩
    norm_num [scheduleClip, audioClip6]
  · intro clip ct ts h
    simp only [specPlayDuration] at h
    have hA := min_le_left (clip.stop - clip.start) (clip.outPoint - clip.inPoint)
    have hB := min_le_right (clip.stop - clip.start) (clip.outPoint - clip.inPoint)
    simp only [scheduleClip]
    by_cases hg : (clip.stop - ts > -(1/10)
        ∧ clip.start - ts < min (clip.stop - clip.start) (clip.outPoint - clip.inPoint) + 1/2)
    · rw [if_pos hg]
      rcases lt_or_le (clip.start - ts) 0 with hrs | hrs
      · rw [if_pos hrs, if_pos hrs, abs_of_neg hrs]
        have hmax : max 0 (ts - clip.start) = ts - clip.start :=
          max_eq_right (by linarith)
        rw [hmax] at h
        have key : min (clip.stop - clip.start) (clip.outPoint - clip.inPoint)
            - -(clip.start - ts) ≤ 0 := by
          rcases min_le_iff.mp h with h' | h'
          · linarith
          · linarith
        rw [if_pos ⟨hrs, key⟩]
      · rw [if_neg (not_lt.mpr hrs), if_neg (not_lt.mpr hrs)]
        rw [if_neg (fun hand => absurd hand.1 (not_lt.mpr hrs))]
        have hmax : max 0 (ts - clip.start) = 0 :=
          max_eq_left (by linarith)
        rw [hmax] at h
        have key : min (min (clip.stop - clip.start) (clip.outPoint - clip.inPoint))
            (clip.outPoint - clip.inPoint) ≤ 0 := by
          have k1 := min_le_left
            (min (clip.stop - clip.start) (clip.outPoint - clip.inPoint))
            (clip.outPoint - clip.inPoint)
          have k2 := min_le_right
            (min (clip.stop - clip.start) (clip.outPoint - clip.inPoint))
            (clip.outPoint - clip.inPoint)
          rcases min_le_iff.mp h with h' | h'
          · linarith
          · linarith
        rw [if_pos key]
    · rw [if_neg hg]

/-- Witness for **C6**: the skip half applied to a clip whose candidate
play duration at playhead 5 is exactly 0. -/
theorem scheduleClip_skip_witness :
    scheduleClip elapsedClip 0 5 = none :=
  scheduleClip_offset_and_skips_nonpositive.2 elapsedClip 0 5
    (by norm_num [specPlayDuration, elapsedClip])

/-- If every clip named `clipId` lacks a resolvable asset (in particular
if no clip has that id), the per-track split body leaves the clip list
unchanged. -/
theorem splitInClips_noop (assets : List (String × Asset)) (now : Nat)
    (clipId : String) (position : ℚ) (clips : List Clip)
    (h : ∀ c ∈ clips, c.id = clipId → c.assetId.bind (lookupAsset assets) = none) :
    splitInClips assets now clipId position clips = clips := by
  induction clips with
  | nil => rfl
  | cons clip rest ih =>
    simp only [splitInClips]
    by_cases hid : clip.id = clipId
    · rw [if_pos hid, h clip (List.mem_cons_self _ _) hid]
    · rw [if_neg hid, ih (fun c hc hcid => h c (List.mem_cons_of_mem _ hc) hcid)]

/-- `HistoryManager.save` always leaves a non-empty past stack. -/
theorem save_past_nonempty (h : History) (snap : HistoryState) :
    (h.save snap).past.length > 0 := by
  simp only [History.save, maxHistorySize]
  split_ifs with hlen
  · simp only [List.length_drop, List.length_append, List.length_singleton]
    simp only [List.length_append, List.length_singleton] at hlen
    omega
  · simp only [List.length_append, List.length_singleton]
    omega

/-- **C10**.  `splitClip` with a clip id present on no track, or whose
clip's asset is absent from the asset map, leaves every track's clip
list (and the whole editor state) unchanged, yet still pushes a history
snapshot: the result is exactly the old state with `history.save`
applied, `canUndo()` becomes true and the redo stack is cleared. -/
theorem splitClip_missing_clip_or_asset_still_saves (st : Store) (now : Nat)
    (clipId : String) (position : ℚ)
    (h : ∀ tr ∈ st.state.tracks, ∀ c ∈ tr.clips, c.id = clipId →
          c.assetId.bind (lookupAsset st.state.assets) = none) :
    st.splitClip now clipId position
        = { state := st.state, hist := st.hist.save (serialize st.state) }
    ∧ (st.splitClip now clipId position).canUndo = true
    ∧ (st.splitClip now clipId position).hist.future = [] := by
  have htracks : st.state.tracks.map (fun track =>
      { track with clips := splitInClips st.state.assets now clipId position track.clips })
      = st.state.tracks := by
    have : ∀ tr ∈ st.state.tracks, ({ tr with
        clips := splitInClips st.state.assets now clipId position tr.clips } : Track) = tr := by
      intro tr htr
      have := splitInClips_noop st.state.assets now clipId position tr.clips (h tr htr)
      rw [this]
    rw [List.map_congr_left this, List.map_id']
  constructor
  · simp only [Store.splitClip, htracks]
  · constructor
    · simp only [Store.splitClip, Store.canUndo, htracks, decide_eq_true_eq]
      exact save_past_nonempty _ _
    · simp only [Store.splitClip, History.save]

/-- Witness for **C10**: splitting a non-existent clip id in the fresh
store records a history step without touching the state. -/
theorem splitClip_noop_save_witness :
    initialStore.splitClip 0 "nope" 1
        = { state := initialStore.state
            hist := initialStore.hist.save (serialize initialStore.state) }
    ∧ (initialStore.splitClip 0 "nope" 1).canUndo = true
    ∧ (initialStore.splitClip 0 "nope" 1).hist.future = [] :=
  splitClip_missing_clip_or_asset_still_saves initialStore 0 "nope" 1 (by decide)

/-- **C8** (amended).  `undo()`/`redo()` restore the {assets, tracks,
jobs, aspectRatio} component of the relevant snapshot and clear the
selection; the playhead and zoom are preserved; history underflow is a
no-op. -/
theorem undo_redo_restore_snapshot_preserve_transport (st : Store) :
    (st.undo.state.playhead = st.state.playhead
      ∧ st.undo.state.zoom = st.state.zoom
      ∧ st.redo.state.playhead = st.state.playhead
      ∧ st.redo.state.zoom = st.state.zoom)
    ∧ (∀ prev, st.hist.past.getLast? = some prev →
        st.undo.state.selection = []
        ∧ st.undo.state.assets = prev.assets
        ∧ st.undo.state.tracks = prev.tracks
        ∧ st.undo.state.jobs = prev.jobs
        ∧ st.undo.state.aspect = prev.aspect)
    ∧ (∀ next rest, st.hist.future = next :: rest →
        st.redo.state.selection = []
        ∧ st.redo.state.assets = next.assets
        ∧ st.redo.state.tracks = next.tracks
        ∧ st.redo.state.jobs = next.jobs
        ∧ st.redo.state.aspect = next.aspect)
    ∧ (st.hist.past = [] → st.undo = st)
    ∧ (st.hist.future = [] → st.redo = st) := by
  refine ⟨⟨?_, ?_, ?_, ?_⟩, ?_, ?_, ?_, ?_⟩
  · cases hp : st.hist.past.getLast? <;> simp [Store.undo, hp]
  · cases hp : st.hist.past.getLast? <;> simp [Store.undo, hp]
  · cases hf : st.hist.future <;> simp [Store.redo, hf]
  · cases hf : st.hist.future <;> simp [Store.redo, hf]
  · intro prev hprev
    simp [Store.undo, hprev]
  · intro next rest hfut
    simp [Store.redo, hfut]
  · intro hpast
    simp [Store.undo, hpast]
  · intro hfut
    simp [Store.redo, hfut]

/-- Witness for **C8**: on a store with one past and one future
snapshot, undo preserves the playhead, clears the selection and restores
the snapshot's aspect ratio, and redo restores the future snapshot's. -/
theorem undo_redo_frame_witness :
    histStore.undo.state.playhead = histStore.state.playhead
    ∧ histStore.undo.state.selection = []
    ∧ histStore.undo.state.aspect = snapPrev.aspect
    ∧ histStore.redo.state.aspect = snapNext.aspect :=
  ⟨(undo_redo_restore_snapshot_preserve_transport histStore).1.1,
   ((undo_redo_restore_snapshot_preserve_transport histStore).2.1 snapPrev (by decide)).1,
   ((undo_redo_restore_snapshot_preserve_transport histStore).2.1 snapPrev (by decide)).2.2.2.2,
   ((undo_redo_restore_snapshot_preserve_transport histStore).2.2.1 snapNext [] (by decide)).2.2.2.2⟩

/-- **C9** (amended).  `setTransition(fromId, toId, d)` always stores
`transitionDuration = min(1.5, max(0.25, d))` (the clamp of the claim),
`transitionType = "crossfade"` and `transitionToClipId = toId` on every
clip with id `fromId` — unconditionally, with no adjacency or same-track
requirement — and clears the transition of any other clip that pointed
to `fromId`. -/
theorem setTransition_clamps_and_is_unconditional (st : Store)
    (fromId toId : String) (d : ℚ) :
    (∀ tr ∈ st.state.tracks, ∀ c ∈ tr.clips, c.id = fromId →
      ∃ tr' ∈ (st.setTransition fromId toId d).state.tracks, ∃ c' ∈ tr'.clips,
        c'.id = fromId
        ∧ c'.transitionType = some "crossfade"
        ∧ c'.transitionDuration = some (min (3/2) (max (1/4) d))
        ∧ c'.transitionToClipId = some toId)
    ∧ ∀ tr' ∈ (st.setTransition fromId toId d).state.tracks, ∀ c' ∈ tr'.clips,
        c'.id ≠ fromId → c'.transitionToClipId ≠ some fromId := by
  have hclamp : max (1/4 : ℚ) (min (3/2) d) = min (3/2) (max (1/4) d) := by
    rw [max_min_distrib_left, max_eq_right (by norm_num : (1/4:ℚ) ≤ 3/2)]
  constructor
  · intro tr htr c hc hid
    refine ⟨_, List.mem_map_of_mem _ htr, _, List.mem_map_of_mem _ hc, ?_⟩
    rw [if_pos hid]
    exact ⟨hid, rfl, by rw [hclamp], rfl⟩
  · intro tr' htr' c' hc' hneq
    simp only [Store.setTransition, List.mem_map] at htr'
    obtain ⟨tr, htr, rfl⟩ := htr'
    simp only [List.mem_map] at hc'
    obtain ⟨c, hc, rfl⟩ := hc'
    by_cases hid : c.id = fromId
    · rw [if_pos hid] at hneq ⊢
      exact absurd hid hneq
    · rw [if_neg hid] at hneq ⊢
      by_cases hpt : c.transitionToClipId = some fromId
      · rw [if_pos hpt]
        simp
      · rw [if_neg hpt]
        exact hpt

/-- Witness for **C9**: applied to the non-adjacent fixture with
requested duration 99, which is clamped to 1.5. -/
theorem setTransition_clamp_witness :
    ∃ tr' ∈ (farStore.setTransition "A" "B" 99).state.tracks, ∃ c' ∈ tr'.clips,
      c'.id = "A" ∧ c'.transitionType = some "crossfade"
      ∧ c'.transitionDuration = some (min (3/2) (max (1/4) (99:ℚ)))
      ∧ c'.transitionToClipId = some "B" :=
  (setTransition_clamps_and_is_unconditional farStore "A" "B" 99).1
    ⟨"track-video-1", "video", [farA, farB]⟩ (by decide) farA (by decide) (by decide)

/-- Every element produced by the indexed map comes from an element of
the input list. -/
theorem mem_mapIdxFrom {f : Nat → Clip → Clip} :
    ∀ {i : Nat} {l : List Clip} {x : Clip},
      x ∈ mapIdxFrom f i l → ∃ j c, c ∈ l ∧ x = f j c := by
  intro i l
  induction l generalizing i with
  | nil => intro x hx; simp [mapIdxFrom] at hx
  | cons c cs ih =>
    intro x hx
    simp only [mapIdxFrom, List.mem_cons] at hx
    rcases hx with rfl | hx
    · exact ⟨i, c, List.mem_cons_self _ _, rfl⟩
    · obtain ⟨j, c', hc', rfl⟩ := ih hx
      exact ⟨j, c', List.mem_cons_of_mem _ hc', rfl⟩

/-- Sorting by start preserves membership. -/
theorem mem_sortByStart {x : Clip} {l : List Clip} :
    x ∈ sortByStart l ↔ x ∈ l :=
  List.mem_insertionSort byStart

/-- **C2** (amended).  Move and trim never create transitions: starting
from a state in which no clip carries transition state — in particular
one in which two clips have just been left flush — every clip after any
`moveClip` or `trimClip` still carries none.  Crossfades arise only from
explicit `setTransition` calls. -/
theorem move_and_trim_preserve_transition_free
    (st : Store) (clipId trackId : String) (position : ℚ) (ripple : Bool)
    (inPt outPt : Option ℚ)
    (h : NoTransitions st.state.tracks) :
    NoTransitions (st.moveClip clipId trackId position ripple).state.tracks
    ∧ NoTransitions (st.trimClip clipId inPt outPt ripple).state.tracks := by
  constructor
  · cases hfind : (allClips st.state.tracks).find? (fun c => c.id == clipId) with
    | none =>
      simp only [Store.moveClip, hfind]
      exact h
    | some clip =>
      have hclip : NoTransition clip := by
        have hmem := List.mem_of_find?_eq_some hfind
        simp only [allClips, List.mem_flatMap] at hmem
        obtain ⟨tr, htr, hc⟩ := hmem
        exact h tr htr clip hc
      simp only [Store.moveClip, hfind]
      intro tr'' htr'' x hx
      simp only [List.mem_map] at htr''
      obtain ⟨tr', ⟨tr, htr, rfl⟩, rfl⟩ := htr''
      split_ifs at hx
      all_goals
        first
        | exact h tr htr x hx
        | exact h tr htr x (List.mem_filter.mp hx).1
        | (obtain ⟨j, c, hc, rfl⟩ := mem_mapIdxFrom hx
           have hcNT := h tr htr c (mem_sortByStart.mp hc)
           split_ifs <;> exact hcNT)
        | (rcases List.mem_append.mp (mem_sortByStart.mp hx) with hx' | hx'
           · first
             | exact h tr htr x hx'
             | exact h tr htr x (List.mem_filter.mp hx').1
             | (obtain ⟨j, c, hc, rfl⟩ := mem_mapIdxFrom hx'
                have hcNT := h tr htr c (mem_sortByStart.mp hc)
                split_ifs <;> exact hcNT)
           · simp only [List.mem_singleton] at hx'
             subst hx'
             exact hclip)
  · cases hfind : (allClips st.state.tracks).find? (fun c => c.id == clipId) with
    | none =>
      simp only [Store.trimClip, hfind]
      exact h
    | some clip =>
      simp only [Store.trimClip, hfind]
      intro tr' htr' x hx
      simp only [List.mem_map] at htr'
      obtain ⟨tr, htr, rfl⟩ := htr'
      split_ifs at hx
      all_goals
        first
        | exact h tr htr x hx
        | (obtain ⟨j, c, hc, rfl⟩ := mem_mapIdxFrom hx
           have hcNT := h tr htr c (mem_sortByStart.mp hc)
           split_ifs <;> exact hcNT)

/-- Witness for **C2**: the flush scenario-B store stays transition-free
under the flushness-confirming move and a trim. -/
theorem move_and_trim_preserve_transition_free_witness :
    NoTransitions (flushStore.moveClip "A" "track-video-1" 0 false).state.tracks
    ∧ NoTransitions (flushStore.trimClip "A" none (some 3) false).state.tracks :=
  move_and_trim_preserve_transition_free flushStore "A" "track-video-1" 0 false
    none (some 3) (by unfold NoTransitions NoTransition; decide)

/-- Two elements on opposite sides of an append have distinct images
when the combined image list has no duplicates. -/
theorem map_ne_across_append {α β : Type} (f : α → β) {l1 l2 : List α}
    (h : ((l1 ++ l2).map f).Nodup) {a b : α}
    (ha : a ∈ l1) (hb : b ∈ l2) : f a ≠ f b := by
  rw [List.map_append] at h
  have hd := (List.nodup_append.mp h).2.2
  intro he
  exact hd (List.mem_map_of_mem _ ha) (he ▸ List.mem_map_of_mem _ hb)

/-- When the first clip named `c.id` is `c` itself and its asset
resolves, the split body replaces `c` by its two halves in place. -/
theorem splitInClips_found (assets : List (String × Asset)) (now : Nat)
    (position : ℚ) (pre : List Clip) (c : Clip) (post : List Clip)
    (hpre : ∀ x ∈ pre, x.id ≠ c.id)
    (hasset : c.assetId.bind (lookupAsset assets) ≠ none) :
    splitInClips assets now c.id position (pre ++ c :: post)
      = pre ++ firstClip c position (splitPoint c position)
          :: secondClip c now position (splitPoint c position) :: post := by
  induction pre with
  | nil =>
    simp only [List.nil_append, splitInClips, if_pos rfl]
    obtain ⟨a, ha⟩ := Option.ne_none_iff_exists'.mp hasset
    simp [ha]
  | cons x xs ih =>
    simp only [List.cons_append, splitInClips]
    rw [if_neg (hpre x (List.mem_cons_self _ _))]
    exact congrArg (List.cons x) (ih (fun y hy => hpre y (List.mem_cons_of_mem _ hy)))

/-- The track-level effect of `splitClip` on a well-formed state: only
the track holding the clip changes, by in-place replacement of the clip
with its two halves. -/
theorem splitClip_tracks_eq (st : Store) (now : Nat) (p : ℚ)
    (T1 T2 : List Track) (t : Track) (pre post : List Clip) (c : Clip)
    (aid : String) (asset : Asset)
    (hT : st.state.tracks = T1 ++ t :: T2)
    (hclips : t.clips = pre ++ c :: post)
    (hids : ((allClips st.state.tracks).map Clip.id).Nodup)
    (haid : c.assetId = some aid)
    (hasset : lookupAsset st.state.assets aid = some asset) :
    (st.splitClip now c.id p).state.tracks
      = T1 ++ { t with clips := pre ++ firstClip c p (splitPoint c p)
          :: secondClip c now p (splitPoint c p) :: post } :: T2 := by
  have hsplit1 : allClips st.state.tracks
      = (T1.flatMap Track.clips ++ pre) ++ (c :: (post ++ T2.flatMap Track.clips)) := by
    simp [allClips, hT, hclips, List.append_assoc]
  have hsplit2 : allClips st.state.tracks
      = ((T1.flatMap Track.clips ++ pre) ++ [c]) ++ (post ++ T2.flatMap Track.clips) := by
    simp [allClips, hT, hclips, List.append_assoc]
  have hids1 := hsplit1 ▸ hids
  have hids2 := hsplit2 ▸ hids
  have hpre_ne : ∀ x ∈ pre, x.id ≠ c.id := fun x hx =>
    map_ne_across_append Clip.id hids1 (List.mem_append_right _ hx) (List.mem_cons_self _ _)
  have hT1_ne : ∀ tr ∈ T1, ∀ x ∈ tr.clips, x.id ≠ c.id := fun tr htr x hx =>
    map_ne_across_append Clip.id hids1
      (List.mem_append_left _ (List.mem_flatMap.mpr ⟨tr, htr, hx⟩))
      (List.mem_cons_self _ _)
  have hpost_ne : ∀ x ∈ post, x.id ≠ c.id := fun x hx =>
    (map_ne_across_append Clip.id hids2
      (List.mem_append_right _ (List.mem_singleton.mpr rfl))
      (List.mem_append_left _ hx)).symm
  have hT2_ne : ∀ tr ∈ T2, ∀ x ∈ tr.clips, x.id ≠ c.id := fun tr htr x hx =>
    (map_ne_across_append Clip.id hids2
      (List.mem_append_right _ (List.mem_singleton.mpr rfl))
      (List.mem_append_right _ (List.mem_flatMap.mpr ⟨tr, htr, hx⟩))).symm
  have hnoop : ∀ (tr : Track), (∀ x ∈ tr.clips, x.id ≠ c.id) →
      ({ tr with clips := splitInClips st.state.assets now c.id p tr.clips } : Track) = tr := by
    intro tr hne
    rw [splitInClips_noop _ _ _ _ _ (fun x hx hxid => absurd hxid (hne x hx))]
  simp only [Store.splitClip, hT]
  rw [List.map_append, List.map_cons]
  congr 1
  · exact List.map_congr_left (fun tr htr => hnoop tr (hT1_ne tr htr)) |>.trans (List.map_id' _)
  congr 1
  · show ({ t with clips := splitInClips st.state.assets now c.id p t.clips } : Track) = _
    rw [hclips, splitInClips_found _ _ _ _ _ _ hpre_ne (by rw [haid]; simp [hasset])]
  · exact List.map_congr_left (fun tr htr => hnoop tr (hT2_ne tr htr)) |>.trans (List.map_id' _)

/-- The fresh id given to the right half differs from the original. -/
theorem split_fresh_id_ne (s : String) (n : Nat) :
    s ++ "-split-" ++ toString n ≠ s := by
  intro h
  have hl := congrArg String.length h
  have h7 : String.length "-split-" = 7 := rfl
  simp only [String.length_append, h7] at hl
  omega

/-- **C5**.  Splitting a clip (present on a track, asset resolvable) at
`c.start < p < c.stop` replaces it in place by a left half keeping the
id and ending at `p` and a right half with a fresh id starting at `p`;
their timeline durations sum to the original duration, and their source
windows partition the original window: `left.inPoint = c.inPoint`,
`left.outPoint = right.inPoint`, `right.outPoint = c.outPoint`. -/
theorem splitClip_conservation (st : Store) (now : Nat) (p : ℚ)
    (T1 T2 : List Track) (t : Track) (pre post : List Clip) (c : Clip)
    (aid : String) (asset : Asset)
    (hT : st.state.tracks = T1 ++ t :: T2)
    (hclips : t.clips = pre ++ c :: post)
    (hids : ((allClips st.state.tracks).map Clip.id).Nodup)
    (haid : c.assetId = some aid)
    (hasset : lookupAsset st.state.assets aid = some asset)
    (_hp1 : c.start < p) (_hp2 : p < c.stop)
    (_hio : c.inPoint < c.outPoint) :
    ((st.splitClip now c.id p).state.tracks
      = T1 ++ { t with clips := pre ++ firstClip c p (splitPoint c p)
          :: secondClip c now p (splitPoint c p) :: post } :: T2)
    ∧ (firstClip c p (splitPoint c p)).id = c.id
    ∧ (secondClip c now p (splitPoint c p)).id ≠ c.id
    ∧ (firstClip c p (splitPoint c p)).stop = p
    ∧ (secondClip c now p (splitPoint c p)).start = p
    ∧ ((firstClip c p (splitPoint c p)).stop - (firstClip c p (splitPoint c p)).start)
        + ((secondClip c now p (splitPoint c p)).stop - (secondClip c now p (splitPoint c p)).start)
        = c.stop - c.start
    ∧ (firstClip c p (splitPoint c p)).inPoint = c.inPoint
    ∧ (firstClip c p (splitPoint c p)).outPoint = (secondClip c now p (splitPoint c p)).inPoint
    ∧ (secondClip c now p (splitPoint c p)).outPoint = c.outPoint
    ∧ ((firstClip c p (splitPoint c p)).outPoint - (firstClip c p (splitPoint c p)).inPoint)
        + ((secondClip c now p (splitPoint c p)).outPoint - (secondClip c now p (splitPoint c p)).inPoint)
        = c.outPoint - c.inPoint := by
  refine ⟨splitClip_tracks_eq st now p T1 T2 t pre post c aid asset
    hT hclips hids haid hasset, rfl, split_fresh_id_ne c.id now, rfl, rfl, by
      simp only [firstClip, secondClip]; ring, rfl, rfl, rfl, by
      simp only [firstClip, secondClip]; ring⟩

/-- Witness for **C5**: splitting the [2,5) clip at 3. -/
theorem splitClip_conservation_witness :
    ((splitStore.splitClip 0 clipC.id 3).state.tracks
      = [{ id := "track-video-1", type := "video",
           clips := [firstClip clipC 3 (splitPoint clipC 3),
                     secondClip clipC 0 3 (splitPoint clipC 3)] }])
    ∧ ((firstClip clipC 3 (splitPoint clipC 3)).stop
          - (firstClip clipC 3 (splitPoint clipC 3)).start)
        + ((secondClip clipC 0 3 (splitPoint clipC 3)).stop
          - (secondClip clipC 0 3 (splitPoint clipC 3)).start)
        = clipC.stop - clipC.start := by
  have h := splitClip_conservation splitStore 0 3 [] []
    ⟨"track-video-1", "video", [clipC]⟩ [] [] clipC "as-c"
    ⟨"as-c", "u", "video", some 3⟩ rfl rfl (by decide) rfl rfl
    (by decide) (by decide) (by decide)
  exact ⟨h.1, h.2.2.2.2.2.1⟩

/-- **C3** (amended).  `splitClip` has no bounds guard: for a clip
present on a track with a resolvable asset, a split at `p ≤ c.start` or
`p ≥ c.stop` is *not* a no-op — the clip is still replaced in place by
the two halves (one of them degenerate), growing the track by one clip.
The `start < position < end` requirement lives only in the UI callers. -/
theorem splitClip_out_of_bounds_still_splits (st : Store) (now : Nat) (p : ℚ)
    (T1 T2 : List Track) (t : Track) (pre post : List Clip) (c : Clip)
    (aid : String) (asset : Asset)
    (hT : st.state.tracks = T1 ++ t :: T2)
    (hclips : t.clips = pre ++ c :: post)
    (hids : ((allClips st.state.tracks).map Clip.id).Nodup)
    (haid : c.assetId = some aid)
    (hasset : lookupAsset st.state.assets aid = some asset)
    (_hp : p ≤ c.start ∨ c.stop ≤ p) :
    ((st.splitClip now c.id p).state.tracks
      = T1 ++ { t with clips := pre ++ firstClip c p (splitPoint c p)
          :: secondClip c now p (splitPoint c p) :: post } :: T2)
    ∧ (pre ++ firstClip c p (splitPoint c p)
        :: secondClip c now p (splitPoint c p) :: post).length
        = t.clips.length + 1 := by
  refine ⟨splitClip_tracks_eq st now p T1 T2 t pre post c aid asset
    hT hclips hids haid hasset, ?_⟩
  simp [hclips]
  omega

/-- Witness for **C3**: splitting the [2,5) clip at 7, beyond its end. -/
theorem splitClip_out_of_bounds_still_splits_witness :
    ((splitStore.splitClip 0 clipC.id 7).state.tracks
      = [{ id := "track-video-1", type := "video",
           clips := [firstClip clipC 7 (splitPoint clipC 7),
                     secondClip clipC 0 7 (splitPoint clipC 7)] }])
    ∧ ([firstClip clipC 7 (splitPoint clipC 7),
        secondClip clipC 0 7 (splitPoint clipC 7)] : List Clip).length
        = [clipC].length + 1 := by
  have h := splitClip_out_of_bounds_still_splits splitStore 0 7 [] []
    ⟨"track-video-1", "video", [clipC]⟩ [] [] clipC "as-c"
    ⟨"as-c", "u", "video", some 3⟩ rfl rfl (by decide) rfl rfl
    (Or.inr (by decide))
  exact ⟨h.1, h.2⟩

/-- `findIndex` is non-negative when some element matches. -/
theorem findIdxJS_nonneg_of_mem {p : Clip → Bool} {l : List Clip}
    (h : ∃ x ∈ l, p x) : 0 ≤ findIdxJS p l := by
  induction l with
  | nil => simp at h
  | cons c cs ih =>
    obtain ⟨x, hx, hpx⟩ := h
    simp only [findIdxJS]
    by_cases hc : p c
    · rw [if_pos hc]
    · rw [if_neg hc]
      rcases List.mem_cons.mp hx with rfl | hx'
      · exact absurd hpx hc
      · have := ih ⟨x, hx', hpx⟩
        split_ifs with hr
        · omega
        · omega

/-- `findIndex` of the first match right after a prefix of
non-matching elements. -/
theorem findIdxJS_concat {p : Clip → Bool} {A : List Clip} {c : Clip}
    (B : List Clip) (hA : ∀ x ∈ A, ¬ p x) (hc : p c) :
    findIdxJS p (A ++ c :: B) = (A.length : Int) := by
  induction A with
  | nil => simp [findIdxJS, hc]
  | cons a as ih =>
    have hrec := ih (fun x hx => hA x (List.mem_cons_of_mem _ hx))
    have hnn : (0:Int) ≤ findIdxJS p (as ++ c :: B) := by
      rw [hrec]; positivity
    simp only [List.cons_append, findIdxJS, List.append_eq]
    rw [if_neg (hA a (List.mem_cons_self _ _))]
    rw [hrec] at hnn ⊢
    have : ¬ ((as.length : Int) = -1) := by omega
    rw [if_neg this]
    simp

/-- `findIndex` lands inside the prefix when the prefix matches. -/
theorem findIdxJS_lt_of_mem_left {p : Clip → Bool} {A : List Clip}
    (rest : List Clip) (h : ∃ x ∈ A, p x) :
    0 ≤ findIdxJS p (A ++ rest) ∧ findIdxJS p (A ++ rest) < (A.length : Int) := by
  induction A with
  | nil => simp at h
  | cons a as ih =>
    simp only [List.cons_append, findIdxJS, List.append_eq]
    by_cases ha : p a
    · rw [if_pos ha]
      constructor
      · omega
      · simp only [List.length_cons]
        omega
    · rw [if_neg ha]
      obtain ⟨x, hx, hpx⟩ := h
      rcases List.mem_cons.mp hx with rfl | hx'
      · exact absurd hpx ha
      · obtain ⟨h1, h2⟩ := ih ⟨x, hx', hpx⟩
        have : ¬ (findIdxJS p (as ++ rest) = -1) := by omega
        rw [if_neg this]
        simp only [List.length_cons]
        constructor
        · omega
        · omega

/-- `findIndex` lands past the prefix and pivot when only the suffix
matches. -/
theorem findIdxJS_gt {p : Clip → Bool} {A B : List Clip} {c : Clip}
    (hA : ∀ x ∈ A, ¬ p x) (hc : ¬ p c) (hB : ∃ x ∈ B, p x) :
    (A.length : Int) < findIdxJS p (A ++ c :: B) := by
  induction A with
  | nil =>
    simp only [List.nil_append, findIdxJS, List.append_eq, List.length_nil]
    rw [if_neg hc]
    have := findIdxJS_nonneg_of_mem hB
    have : ¬ (findIdxJS p B = -1) := by omega
    rw [if_neg this]
    have := findIdxJS_nonneg_of_mem hB
    simp
    omega
  | cons a as ih =>
    have hrec := ih (fun x hx => hA x (List.mem_cons_of_mem _ hx))
    simp only [List.cons_append, findIdxJS, List.append_eq]
    rw [if_neg (hA a (List.mem_cons_self _ _))]
    have : ¬ (findIdxJS p (as ++ c :: B) = -1) := by omega
    rw [if_neg this]
    simp only [List.length_cons]
    push_cast
    omega

/-- With duplicate-free ids, `find?` by id returns the member itself. -/
theorem find_first_of_nodup {c : Clip} :
    ∀ (l : List Clip), ((l.map Clip.id).Nodup) → c ∈ l →
      l.find? (fun x => x.id == c.id) = some c := by
  intro l
  induction l with
  | nil => intro _ h; simp at h
  | cons a as ih =>
    intro hnd hmem
    simp only [List.map_cons, List.nodup_cons] at hnd
    by_cases ha : a.id = c.id
    · have hac : a = c := by
        rcases List.mem_cons.mp hmem with rfl | hmem'
        · rfl
        · exact absurd (ha ▸ List.mem_map_of_mem Clip.id hmem') hnd.1
      rw [List.find?_cons_of_pos _ (by simp [ha])]
      rw [hac]
    · rw [List.find?_cons_of_neg _ (by simp [ha])]
      rcases List.mem_cons.mp hmem with rfl | hmem'
      · exact absurd rfl ha
      · exact ih hnd.2 hmem'

/-- Filtering out one id from a list where only the pivot carries it. -/
theorem filter_ne_id_eq (c : Clip) (A B : List Clip)
    (hA_ne : ∀ a ∈ A, a.id ≠ c.id) (hB_ne : ∀ b ∈ B, b.id ≠ c.id) :
    (A ++ c :: B).filter (fun x => x.id != c.id) = A ++ B := by
  rw [List.filter_append]
  congr 1
  · exact List.filter_eq_self.mpr (fun a ha => by simp [hA_ne a ha])
  · rw [show ((c :: B).filter (fun x => x.id != c.id))
        = B.filter (fun x => x.id != c.id) from by simp]
    exact List.filter_eq_self.mpr (fun b hb => by simp [hB_ne b hb])

/-- The ripple branch of `deleteClip` on the sorted decomposition
`A ++ c :: B`: `c` is removed and exactly the clips of `B` are shifted
left by `D`. -/
theorem rippleDelete_eq (c : Clip) (D : ℚ) (A B : List Clip)
    (hA_ne : ∀ a ∈ A, a.id ≠ c.id) (hB_ne : ∀ b ∈ B, b.id ≠ c.id)
    (hnd : (((A ++ c :: B)).map Clip.id).Nodup) :
    rippleDelete c.id D (A ++ c :: B)
      = A ++ B.map (fun d => { d with start := d.start - D, stop := d.stop - D }) := by
  have hidx : findIdxJS (fun x => x.id == c.id) (A ++ c :: B) = (A.length : Int) :=
    findIdxJS_concat B (fun x hx => by simp [hA_ne x hx]) (by simp)
  simp only [rippleDelete]
  rw [hidx, filter_ne_id_eq c A B hA_ne hB_ne, List.map_append]
  congr 1
  · apply (List.map_congr_left _).trans (List.map_id' _)
    intro a ha
    obtain ⟨h0, hlt⟩ := @findIdxJS_lt_of_mem_left (fun o => o.id == a.id) A
      (c :: B) ⟨a, ha, by simp⟩
    rw [if_neg (by omega :
      ¬ findIdxJS (fun o => o.id == a.id) (A ++ c :: B) > (A.length : Int))]
  · apply List.map_congr_left
    intro b hb
    have hAb : ∀ x ∈ A, ¬ (x.id == b.id) = true := fun x hx => by
      simp only [beq_iff_eq]
      exact map_ne_across_append Clip.id hnd hx (List.mem_cons_of_mem _ hb)
    have hcb : ¬ (c.id == b.id) = true := by
      simp only [beq_iff_eq]
      intro he
      exact hB_ne b hb he.symm
    have hgt := findIdxJS_gt hAb hcb ⟨b, hb, by simp⟩
    rw [if_pos hgt]

/-- **C4**.  Ripple-deleting a clip `c` of duration `D` from its track
changes only that track: `c` is removed, every clip after `c` in
ascending start order has both `start` and `end` reduced by exactly `D`,
and every earlier clip is kept unchanged; a non-rippled delete removes
`c` and shifts nothing. -/
theorem deleteClip_ripple_conservation (st : Store) (c : Clip)
    (T1 T2 : List Track) (t : Track)
    (hT : st.state.tracks = T1 ++ t :: T2)
    (htids : ((T1 ++ t :: T2).map Track.id).Nodup)
    (hc : c ∈ t.clips) (htrk : c.trackId = t.id)
    (hids : ((allClips st.state.tracks).map Clip.id).Nodup)
    (hstarts : ((t.clips).map Clip.start).Nodup) :
    (∃ newClips,
      (st.deleteClip c.id true).state.tracks
          = T1 ++ { t with clips := newClips } :: T2
      ∧ newClips.length + 1 = t.clips.length
      ∧ (∀ d ∈ t.clips, d.id ≠ c.id → d.start < c.start → d ∈ newClips)
      ∧ (∀ d ∈ t.clips, d.id ≠ c.id → c.start < d.start →
          ({ d with
              start := d.start - (c.stop - c.start)
              stop := d.stop - (c.stop - c.start) } : Clip) ∈ newClips)
      ∧ (∀ x ∈ newClips, x.id ≠ c.id))
    ∧ (∃ kept,
      (st.deleteClip c.id false).state.tracks
          = T1 ++ { t with clips := kept } :: T2
      ∧ kept.length + 1 = t.clips.length
      ∧ (∀ d ∈ t.clips, d.id ≠ c.id → d ∈ kept)
      ∧ (∀ x ∈ kept, x ∈ t.clips ∧ x.id ≠ c.id)) := by
  -- the global find? locates exactly c
  have hcall : c ∈ allClips st.state.tracks := by
    simp only [allClips, List.mem_flatMap]
    exact ⟨t, by rw [hT]; exact List.mem_append_right _ (List.mem_cons_self _ _), hc⟩
  have hfind : (allClips st.state.tracks).find? (fun x => x.id == c.id) = some c :=
    find_first_of_nodup _ hids hcall
  have hfindT : (allClips (T1 ++ t :: T2)).find? (fun x => x.id == c.id) = some c := by
    rw [← hT]
    exact hfind
  -- track-id disjointness
  have htids2 : (((T1 ++ [t]) ++ T2).map Track.id).Nodup := by
    rw [List.append_assoc, List.singleton_append]
    exact htids
  have hT1_tid : ∀ tr ∈ T1, tr.id ≠ t.id := fun tr htr =>
    map_ne_across_append Track.id htids htr (List.mem_cons_self _ _)
  have hT2_tid : ∀ tr ∈ T2, tr.id ≠ t.id := fun tr htr =>
    fun he => (map_ne_across_append Track.id htids2
      (List.mem_append_right _ (List.mem_singleton.mpr rfl)) htr) he.symm
  -- clip ids of t are nodup
  have hmid : allClips st.state.tracks
      = T1.flatMap Track.clips ++ (t.clips ++ T2.flatMap Track.clips) := by
    simp [allClips, hT]
  have hclips_nd : ((t.clips).map Clip.id).Nodup := by
    have h' := hmid ▸ hids
    rw [List.map_append, List.map_append] at h'
    exact (List.Nodup.of_append_right h').of_append_left
  -- sorted decomposition
  have hperm : List.Perm (sortByStart t.clips) t.clips :=
    List.perm_insertionSort byStart t.clips
  have hsorted_nd : ((sortByStart t.clips).map Clip.id).Nodup :=
    ((hperm.map Clip.id).nodup_iff).mpr hclips_nd
  have hsorted_starts : ((sortByStart t.clips).map Clip.start).Nodup :=
    ((hperm.map Clip.start).nodup_iff).mpr hstarts
  have hsorted_sorted : List.Sorted byStart (sortByStart t.clips) :=
    List.sorted_insertionSort byStart t.clips
  obtain ⟨A, B, hAB⟩ := List.append_of_mem (mem_sortByStart.mpr hc)
  have hAB2 : sortByStart t.clips = (A ++ [c]) ++ B := by
    rw [hAB, List.append_assoc, List.singleton_append]
  have hA_ne : ∀ a ∈ A, a.id ≠ c.id := fun a ha =>
    map_ne_across_append Clip.id (hAB ▸ hsorted_nd) ha (List.mem_cons_self _ _)
  have hB_ne : ∀ b ∈ B, b.id ≠ c.id := fun b hb =>
    fun he => (map_ne_across_append Clip.id (hAB2 ▸ hsorted_nd)
      (List.mem_append_right _ (List.mem_singleton.mpr rfl)) hb) he.symm
  have hpairs := List.pairwise_append.mp (hAB ▸ hsorted_sorted)
  have hA_lt : ∀ a ∈ A, a.start < c.start := fun a ha =>
    lt_of_le_of_ne (hpairs.2.2 a ha c (List.mem_cons_self _ _))
      (map_ne_across_append Clip.start (hAB ▸ hsorted_starts) ha (List.mem_cons_self _ _))
  have hB_gt : ∀ b ∈ B, c.start < b.start := fun b hb =>
    lt_of_le_of_ne ((List.pairwise_cons.mp hpairs.2.1).1 b hb)
      (map_ne_across_append Clip.start (hAB2 ▸ hsorted_starts)
        (List.mem_append_right _ (List.mem_singleton.mpr rfl)) hb)
  -- per-track map facts shared by both branches
  have hlenAB : A.length + B.length + 1 = t.clips.length := by
    have := hperm.length_eq
    rw [hAB] at this
    simp only [List.length_append, List.length_cons] at this
    omega
  constructor
  · -- ripple branch
    refine ⟨A ++ B.map (fun d => { d with
        start := d.start - (c.stop - c.start)
        stop := d.stop - (c.stop - c.start) }), ?_, ?_, ?_, ?_, ?_⟩
    · simp only [Store.deleteClip, hT, hfindT]
      rw [List.map_append, List.map_cons]
      congr 1
      · apply (List.map_congr_left _).trans (List.map_id' _)
        intro tr htr
        rw [if_pos (by rw [htrk]; exact hT1_tid tr htr)]
      congr 1
      · rw [if_neg (by rw [htrk]; simp), if_pos trivial]
        show ({ t with clips := rippleDelete c.id (c.stop - c.start) (sortByStart t.clips) } : Track) = _
        rw [hAB, rippleDelete_eq c _ A B hA_ne hB_ne (hAB ▸ hsorted_nd)]
      · apply (List.map_congr_left _).trans (List.map_id' _)
        intro tr htr
        rw [if_pos (by rw [htrk]; exact hT2_tid tr htr)]
    · simp only [List.length_append, List.length_map]
      omega
    · intro d hd hdid hdlt
      have hds : d ∈ A ++ c :: B := hAB ▸ (mem_sortByStart.mpr hd)
      rcases List.mem_append.mp hds with hdA | hdcB
      · exact List.mem_append_left _ hdA
      · rcases List.mem_cons.mp hdcB with rfl | hdB
        · exact absurd rfl hdid
        · exact absurd hdlt (not_lt.mpr (le_of_lt (hB_gt d hdB)))
    · intro d hd hdid hdgt
      have hds : d ∈ A ++ c :: B := hAB ▸ (mem_sortByStart.mpr hd)
      rcases List.mem_append.mp hds with hdA | hdcB
      · exact absurd hdgt (not_lt.mpr (le_of_lt (hA_lt d hdA)))
      · rcases List.mem_cons.mp hdcB with rfl | hdB
        · exact absurd rfl hdid
        · exact List.mem_append_right _ (List.mem_map_of_mem _ hdB)
    · intro x hx
      rcases List.mem_append.mp hx with hxA | hxB
      · exact hA_ne x hxA
      · obtain ⟨d, hdB, rfl⟩ := List.mem_map.mp hxB
        exact hB_ne d hdB
  · -- non-ripple branch
    obtain ⟨P, Q, hPQ⟩ := List.append_of_mem hc
    have hP_ne : ∀ a ∈ P, a.id ≠ c.id := fun a ha =>
      map_ne_across_append Clip.id (hPQ ▸ hclips_nd) ha (List.mem_cons_self _ _)
    have hPQ2 : t.clips = (P ++ [c]) ++ Q := by
      rw [hPQ, List.append_assoc, List.singleton_append]
    have hQ_ne : ∀ b ∈ Q, b.id ≠ c.id := fun b hb =>
      fun he => (map_ne_across_append Clip.id (hPQ2 ▸ hclips_nd)
        (List.mem_append_right _ (List.mem_singleton.mpr rfl)) hb) he.symm
    refine ⟨P ++ Q, ?_, ?_, ?_, ?_⟩
    · simp only [Store.deleteClip, hT, hfindT]
      rw [List.map_append, List.map_cons]
      congr 1
      · apply (List.map_congr_left _).trans (List.map_id' _)
        intro tr htr
        rw [if_pos (by rw [htrk]; exact hT1_tid tr htr)]
      congr 1
      · rw [if_neg (by rw [htrk]; simp)]
        rw [if_neg Bool.false_ne_true]
        show ({ t with clips := t.clips.filter (fun x => x.id != c.id) } : Track) = _
        rw [hPQ, filter_ne_id_eq c P Q hP_ne hQ_ne]
      · apply (List.map_congr_left _).trans (List.map_id' _)
        intro tr htr
        rw [if_pos (by rw [htrk]; exact hT2_tid tr htr)]
    · rw [hPQ]
      simp only [List.length_append, List.length_cons]
      omega
    · intro d hd hdid
      have hds : d ∈ P ++ c :: Q := hPQ ▸ hd
      rcases List.mem_append.mp hds with hdP | hdcQ
      · exact List.mem_append_left _ hdP
      · rcases List.mem_cons.mp hdcQ with rfl | hdQ
        · exact absurd rfl hdid
        · exact List.mem_append_right _ hdQ
    · intro x hx
      rcases List.mem_append.mp hx with hxP | hxQ
      · exact ⟨hPQ ▸ List.mem_append_left _ hxP, hP_ne x hxP⟩
      · exact ⟨hPQ ▸ List.mem_append_right _ (List.mem_cons_of_mem _ hxQ), hQ_ne x hxQ⟩

/-- Witness for **C4**: scenario C.  With `A` spanning [2,5) and `B`
spanning [5,8), ripple-deleting `A` leaves only `B` shifted left by 3
(so `B.start` becomes 2), and a plain delete leaves `B` untouched. -/
theorem deleteClip_ripple_witness :
    (sceneStore.deleteClip sceneA.id true).state.tracks
      = [{ id := "track-video-1", type := "video",
           clips := [{ sceneB with
              start := sceneB.start - (sceneA.stop - sceneA.start)
              stop := sceneB.stop - (sceneA.stop - sceneA.start) }] }]
    ∧ (sceneStore.deleteClip sceneA.id false).state.tracks
      = [{ id := "track-video-1", type := "video", clips := [sceneB] }] := by
  obtain ⟨⟨newClips, h1, h2, h3, h4, h5⟩, ⟨kept, k1, k2, k3, k4⟩⟩ :=
    deleteClip_ripple_conservation sceneStore sceneA [] []
      ⟨"track-video-1", "video", [sceneA, sceneB]⟩ rfl (by decide) (by decide)
      rfl (by decide) (by decide)
  constructor
  · have hmem := h4 sceneB (by decide) (by decide) (by decide)
    have hlen : newClips.length = 1 := by
      simp at h2
      omega
    obtain ⟨a, ha⟩ := List.length_eq_one.mp hlen
    rw [ha] at hmem
    have haeq := (List.mem_singleton.mp hmem).symm
    rw [h1, ha, haeq]
    rfl
  · have hmem := k3 sceneB (by decide) (by decide)
    have hlen : kept.length = 1 := by
      simp at k2
      omega
    obtain ⟨a, ha⟩ := List.length_eq_one.mp hlen
    rw [ha] at hmem
    have haeq := (List.mem_singleton.mp hmem).symm
    rw [k1, ha, haeq]
    rfl

/-- **C7** (counterexample).  The claim says any `t` within 4px of
`playhead = 10` snaps to the playhead.  At `t = 10.2` with zoom 10
(pixel distance 2 < 4), the grid tick at 10.2 itself is strictly closer
(0px), so the resolver returns the grid tick, not the playhead. -/
theorem snap_prefers_closer_grid_tick_over_playhead :
    |timeToPixels (51/5) 10 - timeToPixels 10 10| < SNAP_THRESHOLD_PX
    ∧ (findSnapTarget (51/5) 10 10 [] (1/10)).snappedTime ≠ 10
    ∧ (findSnapTarget (51/5) 10 10 [] (1/10)).snapTarget = some SnapTarget.grid := by
  norm_num [findSnapTarget, snapCheck, timeToPixels, snapToGrid, ltDist, SNAP_THRESHOLD_PX]

/-- One snap check either keeps the best candidate or replaces it by a
below-threshold candidate. -/
theorem snapCheck_cases (timePx candTime : ℚ) (tag : SnapTarget) (candPx : ℚ)
    (best : SnapResult) :
    snapCheck timePx candTime tag candPx best = best
    ∨ (snapCheck timePx candTime tag candPx best
        = ⟨candTime, some tag, some |timePx - candPx|⟩
       ∧ |timePx - candPx| < SNAP_THRESHOLD_PX) := by
  simp only [snapCheck]
  split_ifs with h
  · exact Or.inr ⟨rfl, h.1⟩
  · exact Or.inl rfl

/-- A snap check never increases the best distance. -/
theorem snapCheck_dist_le (timePx candTime : ℚ) (tag : SnapTarget) (candPx : ℚ)
    (best : SnapResult) (d0 : ℚ) (h : best.snapDistance = some d0) :
    ∃ d, (snapCheck timePx candTime tag candPx best).snapDistance = some d ∧ d ≤ d0 := by
  simp only [snapCheck]
  split_ifs with hc
  · refine ⟨|timePx - candPx|, rfl, ?_⟩
    have := hc.2
    rw [h] at this
    simp only [ltDist, decide_eq_true_eq] at this
    exact le_of_lt this
  · exact ⟨d0, h, le_refl _⟩

/-- After checking a below-threshold candidate, the best distance is at
most that candidate's distance. -/
theorem snapCheck_le_cand (timePx candTime : ℚ) (tag : SnapTarget) (candPx : ℚ)
    (best : SnapResult) (h : |timePx - candPx| < SNAP_THRESHOLD_PX) :
    ∃ d, (snapCheck timePx candTime tag candPx best).snapDistance = some d
      ∧ d ≤ |timePx - candPx| := by
  simp only [snapCheck]
  split_ifs with hc
  · exact ⟨|timePx - candPx|, rfl, le_refl _⟩
  · rw [not_and] at hc
    have := hc h
    cases hb : best.snapDistance with
    | none =>
      rw [hb] at this
      exact absurd (by simp [ltDist]) this
    | some d0 =>
      rw [hb] at this
      simp only [ltDist, decide_eq_true_eq] at this
      exact ⟨d0, rfl, le_of_not_lt (fun hlt => this hlt)⟩

/-- A candidate no closer than the current best is rejected. -/
theorem snapCheck_keep (timePx candTime : ℚ) (tag : SnapTarget) (candPx : ℚ)
    (best : SnapResult) (d0 : ℚ) (h : best.snapDistance = some d0)
    (hle : d0 ≤ |timePx - candPx|) :
    snapCheck timePx candTime tag candPx best = best := by
  simp only [snapCheck]
  rw [if_neg]
  intro hc
  have := hc.2
  rw [h] at this
  simp only [ltDist, decide_eq_true_eq] at this
  exact absurd this (not_lt.mpr hle)

/-- A candidate at or beyond the threshold is rejected. -/
theorem snapCheck_keep_far (timePx candTime : ℚ) (tag : SnapTarget) (candPx : ℚ)
    (best : SnapResult) (h : SNAP_THRESHOLD_PX ≤ |timePx - candPx|) :
    snapCheck timePx candTime tag candPx best = best := by
  simp only [snapCheck]
  exact if_neg (fun hc => absurd hc.1 (not_lt.mpr h))

/-- The boundary loop keeps a best whose distance undercuts every
boundary. -/
theorem snapFold_keep (timePx zoom : ℚ) :
    ∀ (bs : List ℚ) (best : SnapResult) (d0 : ℚ),
      best.snapDistance = some d0 →
      (∀ b ∈ bs, d0 ≤ |timePx - timeToPixels b zoom|) →
      bs.foldl (fun best boundary =>
        snapCheck timePx boundary SnapTarget.clipStart
          (timeToPixels boundary zoom) best) best = best := by
  intro bs
  induction bs with
  | nil => intro best d0 _ _; rfl
  | cons b bs ih =>
    intro best d0 hd h
    simp only [List.foldl_cons]
    rw [snapCheck_keep _ _ _ _ _ d0 hd (h b (List.mem_cons_self _ _))]
    exact ih best d0 hd (fun x hx => h x (List.mem_cons_of_mem _ hx))

/-- The boundary loop keeps the best when every boundary is at or
beyond the threshold. -/
theorem snapFold_keep_far (timePx zoom : ℚ) :
    ∀ (bs : List ℚ) (best : SnapResult),
      (∀ b ∈ bs, SNAP_THRESHOLD_PX ≤ |timePx - timeToPixels b zoom|) →
      bs.foldl (fun best boundary =>
        snapCheck timePx boundary SnapTarget.clipStart
          (timeToPixels boundary zoom) best) best = best := by
  intro bs
  induction bs with
  | nil => intro best _; rfl
  | cons b bs ih =>
    intro best h
    simp only [List.foldl_cons]
    rw [snapCheck_keep_far _ _ _ _ _ (h b (List.mem_cons_self _ _))]
    exact ih best (fun x hx => h x (List.mem_cons_of_mem _ hx))

/-- The boundary loop never increases the best distance. -/
theorem snapFold_dist_le (timePx zoom : ℚ) :
    ∀ (bs : List ℚ) (best : SnapResult) (d0 : ℚ),
      best.snapDistance = some d0 →
      ∃ d, (bs.foldl (fun best boundary =>
          snapCheck timePx boundary SnapTarget.clipStart
            (timeToPixels boundary zoom) best) best).snapDistance = some d
        ∧ d ≤ d0 := by
  intro bs
  induction bs with
  | nil => intro best d0 hd; exact ⟨d0, hd, le_refl _⟩
  | cons b bs ih =>
    intro best d0 hd
    simp only [List.foldl_cons]
    obtain ⟨d1, hd1, hle1⟩ := snapCheck_dist_le timePx b SnapTarget.clipStart
      (timeToPixels b zoom) best d0 hd
    obtain ⟨d, hdfin, hlefin⟩ := ih _ d1 hd1
    exact ⟨d, hdfin, le_trans hlefin hle1⟩

/-- After the loop, the best distance is at most the distance of any
below-threshold boundary. -/
theorem snapFold_le_bound (timePx zoom : ℚ) :
    ∀ (bs : List ℚ) (best : SnapResult) (b : ℚ), b ∈ bs →
      |timePx - timeToPixels b zoom| < SNAP_THRESHOLD_PX →
      ∃ d, (bs.foldl (fun best boundary =>
          snapCheck timePx boundary SnapTarget.clipStart
            (timeToPixels boundary zoom) best) best).snapDistance = some d
        ∧ d ≤ |timePx - timeToPixels b zoom| := by
  intro bs
  induction bs with
  | nil => intro best b hb; simp at hb
  | cons x bs ih =>
    intro best b hb hlt
    simp only [List.foldl_cons]
    rcases List.mem_cons.mp hb with rfl | hb'
    · obtain ⟨d1, hd1, hle1⟩ := snapCheck_le_cand timePx b SnapTarget.clipStart
        (timeToPixels b zoom) best hlt
      obtain ⟨d, hdfin, hlefin⟩ := snapFold_dist_le timePx zoom bs _ d1 hd1
      exact ⟨d, hdfin, le_trans hlefin hle1⟩
    · exact ih _ b hb' hlt

/-- Loop invariant: a snapped result is a below-threshold candidate
with a correctly recorded pixel distance, drawn from the playhead, the
grid tick or the boundary set. -/
theorem snapFold_inv (timePx zoom playhead gridT : ℚ) (bsAll : List ℚ) :
    ∀ (bs : List ℚ) (best : SnapResult), (∀ b ∈ bs, b ∈ bsAll) →
      (∀ tag, best.snapTarget = some tag → ∃ d, best.snapDistance = some d
        ∧ d < SNAP_THRESHOLD_PX
        ∧ d = |timePx - timeToPixels best.snappedTime zoom|
        ∧ (best.snappedTime = playhead ∨ best.snappedTime = gridT
            ∨ best.snappedTime ∈ bsAll)) →
      ∀ tag, (bs.foldl (fun best boundary =>
          snapCheck timePx boundary SnapTarget.clipStart
            (timeToPixels boundary zoom) best) best).snapTarget = some tag →
        ∃ d, (bs.foldl (fun best boundary =>
            snapCheck timePx boundary SnapTarget.clipStart
              (timeToPixels boundary zoom) best) best).snapDistance = some d
          ∧ d < SNAP_THRESHOLD_PX
          ∧ d = |timePx - timeToPixels (bs.foldl (fun best boundary =>
              snapCheck timePx boundary SnapTarget.clipStart
                (timeToPixels boundary zoom) best) best).snappedTime zoom|
          ∧ ((bs.foldl (fun best boundary =>
              snapCheck timePx boundary SnapTarget.clipStart
                (timeToPixels boundary zoom) best) best).snappedTime = playhead
            ∨ (bs.foldl (fun best boundary =>
              snapCheck timePx boundary SnapTarget.clipStart
                (timeToPixels boundary zoom) best) best).snappedTime = gridT
            ∨ (bs.foldl (fun best boundary =>
              snapCheck timePx boundary SnapTarget.clipStart
                (timeToPixels boundary zoom) best) best).snappedTime ∈ bsAll) := by
  intro bs
  induction bs with
  | nil => intro best _ hinv; exact hinv
  | cons x bs ih =>
    intro best hsub hinv
    simp only [List.foldl_cons]
    apply ih
    · intro b hb
      exact hsub b (List.mem_cons_of_mem _ hb)
    · rcases snapCheck_cases timePx x SnapTarget.clipStart
        (timeToPixels x zoom) best with hkeep | ⟨htake, hdist⟩
      · rw [hkeep]
        exact hinv
      · rw [htake]
        intro tg _
        exact ⟨|timePx - timeToPixels x zoom|, rfl, hdist, rfl,
          Or.inr (Or.inr (hsub x (List.mem_cons_self _ _)))⟩

/-- A snapped result of `findSnapTarget` is a below-threshold candidate
whose pixel distance is recorded exactly and is minimal among the
playhead, the grid tick and every clip boundary. -/
theorem findSnapTarget_minimal_candidate (time zoom playhead : ℚ) (bs : List ℚ) :
    ∀ tag, (findSnapTarget time zoom playhead bs (1/10)).snapTarget = some tag →
      ∃ d, (findSnapTarget time zoom playhead bs (1/10)).snapDistance = some d
        ∧ d < SNAP_THRESHOLD_PX
        ∧ d = |timeToPixels time zoom
            - timeToPixels (findSnapTarget time zoom playhead bs (1/10)).snappedTime zoom|
        ∧ d ≤ |timeToPixels time zoom - timeToPixels playhead zoom|
        ∧ d ≤ |timeToPixels time zoom - timeToPixels (snapToGrid time (1/10)) zoom|
        ∧ (∀ b ∈ bs, d ≤ |timeToPixels time zoom - timeToPixels b zoom|)
        ∧ ((findSnapTarget time zoom playhead bs (1/10)).snappedTime = playhead
            ∨ (findSnapTarget time zoom playhead bs (1/10)).snappedTime
                = snapToGrid time (1/10)
            ∨ (findSnapTarget time zoom playhead bs (1/10)).snappedTime ∈ bs) := by
  intro tag htag
  simp only [findSnapTarget] at htag ⊢
  set tpx := timeToPixels time zoom with htpx
  set b0 : SnapResult := ⟨time, none, none⟩ with hb0
  set b1 := snapCheck tpx playhead SnapTarget.playhead (timeToPixels playhead zoom) b0
    with hb1def
  set gridT := snapToGrid time (1/10) with hgrid
  set b2 := snapCheck tpx gridT SnapTarget.grid (timeToPixels gridT zoom) b1 with hb2def
  have hinv1 : ∀ tg, b1.snapTarget = some tg → ∃ d, b1.snapDistance = some d
      ∧ d < SNAP_THRESHOLD_PX
      ∧ d = |tpx - timeToPixels b1.snappedTime zoom|
      ∧ (b1.snappedTime = playhead ∨ b1.snappedTime = gridT ∨ b1.snappedTime ∈ bs) := by
    rcases snapCheck_cases tpx playhead SnapTarget.playhead
      (timeToPixels playhead zoom) b0 with hk | ⟨ht, hd⟩
    · rw [hb1def, hk]
      intro tg htg
      rw [hb0] at htg
      simp at htg
    · rw [hb1def, ht]
      intro tg _
      exact ⟨_, rfl, hd, rfl, Or.inl rfl⟩
  have hinv2 : ∀ tg, b2.snapTarget = some tg → ∃ d, b2.snapDistance = some d
      ∧ d < SNAP_THRESHOLD_PX
      ∧ d = |tpx - timeToPixels b2.snappedTime zoom|
      ∧ (b2.snappedTime = playhead ∨ b2.snappedTime = gridT ∨ b2.snappedTime ∈ bs) := by
    rcases snapCheck_cases tpx gridT SnapTarget.grid
      (timeToPixels gridT zoom) b1 with hk | ⟨ht, hd⟩
    · rw [hb2def, hk]
      exact hinv1
    · rw [hb2def, ht]
      intro tg _
      exact ⟨_, rfl, hd, rfl, Or.inr (Or.inl rfl)⟩
  obtain ⟨d, hd, hlt, hcorr, hmem⟩ :=
    snapFold_inv tpx zoom playhead gridT bs bs b2 (fun b hb => hb) hinv2 tag htag
  refine ⟨d, hd, hlt, hcorr, ?_, ?_, ?_, hmem⟩
  · by_cases hdp : |tpx - timeToPixels playhead zoom| < SNAP_THRESHOLD_PX
    · have hb1eq : b1 = ⟨playhead, some SnapTarget.playhead,
          some |tpx - timeToPixels playhead zoom|⟩ := by
        rw [hb1def]
        simp only [snapCheck]
        rw [if_pos ⟨hdp, by simp [hb0, ltDist]⟩]
      obtain ⟨d2, hd2, hle2⟩ := snapCheck_dist_le tpx gridT SnapTarget.grid
        (timeToPixels gridT zoom) b1 |tpx - timeToPixels playhead zoom| (by rw [hb1eq])
      have hd2b : b2.snapDistance = some d2 := by
        rw [hb2def]
        exact hd2
      obtain ⟨d3, hd3, hle3⟩ := snapFold_dist_le tpx zoom bs b2 d2 hd2b
      have hdd : d = d3 := Option.some.inj (hd.symm.trans hd3)
      rw [hdd]
      exact le_trans hle3 hle2
    · push_neg at hdp
      linarith
  · by_cases hdg : |tpx - timeToPixels gridT zoom| < SNAP_THRESHOLD_PX
    · obtain ⟨d2, hd2, hle2⟩ := snapCheck_le_cand tpx gridT SnapTarget.grid
        (timeToPixels gridT zoom) b1 hdg
      have hd2b : b2.snapDistance = some d2 := by
        rw [hb2def]
        exact hd2
      obtain ⟨d3, hd3, hle3⟩ := snapFold_dist_le tpx zoom bs b2 d2 hd2b
      have hdd : d = d3 := Option.some.inj (hd.symm.trans hd3)
      rw [hdd]
      exact le_trans hle3 hle2
    · push_neg at hdg
      linarith
  · intro b hb
    by_cases hdb : |tpx - timeToPixels b zoom| < SNAP_THRESHOLD_PX
    · obtain ⟨d3, hd3, hle3⟩ := snapFold_le_bound tpx zoom bs b2 b hb hdb
      have hdd : d = d3 := Option.some.inj (hd.symm.trans hd3)
      rw [hdd]
      exact hle3
    · push_neg at hdb
      linarith

/-- No snap is returned when every candidate is at or beyond the 4px
threshold. -/
theorem findSnapTarget_no_snap (time zoom playhead : ℚ) (bs : List ℚ)
    (hdp : SNAP_THRESHOLD_PX ≤ |timeToPixels time zoom - timeToPixels playhead zoom|)
    (hdg : SNAP_THRESHOLD_PX ≤ |timeToPixels time zoom
        - timeToPixels (snapToGrid time (1/10)) zoom|)
    (hdb : ∀ b ∈ bs, SNAP_THRESHOLD_PX ≤ |timeToPixels time zoom - timeToPixels b zoom|) :
    findSnapTarget time zoom playhead bs (1/10) = ⟨time, none, none⟩ := by
  simp only [findSnapTarget]
  rw [snapCheck_keep_far _ _ _ _ _ hdp]
  rw [snapCheck_keep_far _ _ _ _ _ hdg]
  exact snapFold_keep_far _ _ bs _ hdb

/-- When the playhead is below the threshold and no other candidate is
strictly closer, the playhead wins (ties are broken in its favour). -/
theorem findSnapTarget_playhead_priority (time zoom playhead : ℚ) (bs : List ℚ)
    (hdp : |timeToPixels time zoom - timeToPixels playhead zoom| < SNAP_THRESHOLD_PX)
    (hdpg : |timeToPixels time zoom - timeToPixels playhead zoom|
        ≤ |timeToPixels time zoom - timeToPixels (snapToGrid time (1/10)) zoom|)
    (hdb : ∀ b ∈ bs, |timeToPixels time zoom - timeToPixels playhead zoom|
        ≤ |timeToPixels time zoom - timeToPixels b zoom|) :
    findSnapTarget time zoom playhead bs (1/10)
      = ⟨playhead, some SnapTarget.playhead,
         some |timeToPixels time zoom - timeToPixels playhead zoom|⟩ := by
  simp only [findSnapTarget]
  have hb1 : snapCheck (timeToPixels time zoom) playhead SnapTarget.playhead
      (timeToPixels playhead zoom) ⟨time, none, none⟩
      = ⟨playhead, some SnapTarget.playhead,
         some |timeToPixels time zoom - timeToPixels playhead zoom|⟩ := by
    simp only [snapCheck]
    rw [if_pos ⟨hdp, by simp [ltDist]⟩]
  rw [hb1]
  rw [snapCheck_keep _ _ _ _ _ _ rfl hdpg]
  exact snapFold_keep _ _ bs _ _ rfl hdb

/-- **C7** (amended).  `findSnapTarget` returns the candidate among
{playhead, nearest 0.1s grid tick, clip boundaries} whose pixel distance
`|t*zoom - cand*zoom|` is below the 4px threshold and minimal among all
candidates, with no-snap when none is below threshold; and whenever `t`
is within 4px of the playhead *and no other candidate is strictly
closer*, it returns the playhead (amendment: a strictly closer grid tick
or boundary wins over the playhead). -/
theorem findSnapTarget_nearest_below_threshold (time zoom playhead : ℚ) (bs : List ℚ) :
    ((SNAP_THRESHOLD_PX ≤ |timeToPixels time zoom - timeToPixels playhead zoom| →
      SNAP_THRESHOLD_PX ≤ |timeToPixels time zoom
          - timeToPixels (snapToGrid time (1/10)) zoom| →
      (∀ b ∈ bs, SNAP_THRESHOLD_PX ≤ |timeToPixels time zoom - timeToPixels b zoom|) →
      findSnapTarget time zoom playhead bs (1/10) = ⟨time, none, none⟩))
    ∧ (∀ tag, (findSnapTarget time zoom playhead bs (1/10)).snapTarget = some tag →
      ∃ d, (findSnapTarget time zoom playhead bs (1/10)).snapDistance = some d
        ∧ d < SNAP_THRESHOLD_PX
        ∧ d = |timeToPixels time zoom
            - timeToPixels (findSnapTarget time zoom playhead bs (1/10)).snappedTime zoom|
        ∧ d ≤ |timeToPixels time zoom - timeToPixels playhead zoom|
        ∧ d ≤ |timeToPixels time zoom - timeToPixels (snapToGrid time (1/10)) zoom|
        ∧ (∀ b ∈ bs, d ≤ |timeToPixels time zoom - timeToPixels b zoom|)
        ∧ ((findSnapTarget time zoom playhead bs (1/10)).snappedTime = playhead
            ∨ (findSnapTarget time zoom playhead bs (1/10)).snappedTime
                = snapToGrid time (1/10)
            ∨ (findSnapTarget time zoom playhead bs (1/10)).snappedTime ∈ bs))
    ∧ (|timeToPixels time zoom - timeToPixels playhead zoom| < SNAP_THRESHOLD_PX →
      |timeToPixels time zoom - timeToPixels playhead zoom|
          ≤ |timeToPixels time zoom - timeToPixels (snapToGrid time (1/10)) zoom| →
      (∀ b ∈ bs, |timeToPixels time zoom - timeToPixels playhead zoom|
          ≤ |timeToPixels time zoom - timeToPixels b zoom|) →
      findSnapTarget time zoom playhead bs (1/10)
        = ⟨playhead, some SnapTarget.playhead,
           some |timeToPixels time zoom - timeToPixels playhead zoom|⟩) :=
  ⟨findSnapTarget_no_snap time zoom playhead bs,
   findSnapTarget_minimal_candidate time zoom playhead bs,
   findSnapTarget_playhead_priority time zoom playhead bs⟩

/-- Witness for **C7**: at `t = 10.03`, zoom 100, playhead 10, the
playhead is 3px away (the grid tick is also 3px away, a tie) and wins. -/
theorem findSnapTarget_playhead_witness :
    findSnapTarget (1003/100) 100 10 [] (1/10)
      = ⟨10, some SnapTarget.playhead,
         some |timeToPixels (1003/100) 100 - timeToPixels 10 100|⟩ :=
  (findSnapTarget_nearest_below_threshold (1003/100) 100 10 []).2.2
    (by norm_num [timeToPixels, SNAP_THRESHOLD_PX])
    (by
      have hr : (round ((1003:ℚ)/10) : ℤ) = 100 := by
        rw [round_eq]
        apply Int.floor_eq_iff.mpr
        constructor
        · norm_num
        · norm_num
      norm_num [timeToPixels, snapToGrid, hr])
    (by simp)

end Editor
